import Mathlib

/-!
Verification of the query/filter/projection/sort engine of the omnifocus-mcp
repository. The Python sources under src/omnifocus_mcp generate OmniJS
(JavaScript) scripts; the definitions below are a shallow embedding of the
generated script semantics and of the pure Python helpers (dates.py,
validation.py), translated from the source.

Timestamps are modelled as integers (milliseconds, the unit of JS Date
values); `futureDate.setDate(futureDate.getDate() + n)` is modelled as adding
`n * msPerDay` (calendar-day arithmetic without DST).
-/

/-- Milliseconds per day, the scale of JS Date timestamps in this model. -/
def msPerDay : Int := 86400000

/-- Model of the JS idiom `d.setDate(d.getDate() + n)`: add n calendar days. -/
def addDays (t : Int) (n : Int) : Int := t + n * msPerDay

/-- Midnight of the calendar day containing instant t (floor to a day multiple).
Used only to express the spec side of claim C1, which anchors the window at
the start of the current day. -/
def startOfDay (t : Int) : Int := t - t % msPerDay

/-- Translated from query.py `_build_filter_conditions`, the `due_within` block
(lines 72-83 of the generated filter): reject when there is no due date, or the
due date is after `now + n days` or before `now`, where `now = new Date()` is
the instant of evaluation. -/
def dueWithinCond (now : Int) (n : Int) (dueDate : Option Int) : Bool :=
  match dueDate with
  | none => false
  | some d =>
    let futureDate := addDays now n
    if d > futureDate ∨ d < now then false else true

/-- The due-window predicate as claim C1 words it: the entity has a due date d
with `now ≤ d ≤ now + N days`, where now is the START of the current day.
This is the spec-side definition used to compare against `dueWithinCond`. -/
def dueWithinClaim (now : Int) (n : Int) (dueDate : Option Int) : Bool :=
  match dueDate with
  | none => false
  | some d => decide (startOfDay now ≤ d ∧ d ≤ addDays (startOfDay now) n)

/-- Python values as they appear in the filter dictionaries handed to the
query tools (dict[str, Any] restricted to the value shapes the engine uses). -/
inductive PyVal where
  | str (s : String)
  | int (n : Int)
  | bool (b : Bool)
  | strList (l : List String)
deriving DecidableEq, Repr

/-- A Python dict modelled as an association list in insertion order with
unique keys (the Nodup hypothesis appears where a claim needs it). -/
abbrev FilterMap := List (String × PyVal)

/-- Dict lookup: first binding of the key, if any. -/
def FilterMap.get? (f : FilterMap) (k : String) : Option PyVal :=
  (f.find? (fun kv => kv.1 == k)).map (fun kv => kv.2)

/-- Python truthiness of the modelled values (used by `if filters.get(...)`). -/
def truthy : PyVal → Bool
  | .str s => s != ""
  | .int n => n != 0
  | .bool b => b
  | .strList l => !l.isEmpty

/-- The tuple `_DAYS_FILTERS` from dates.py: the only keys the preprocessing
step converts.  Note it does NOT contain deferred_on, completed_within or
modified_before. -/
def DAYS_FILTERS : List String := ["due_within", "deferred_until", "planned_within"]

/-- Dict item assignment `result[key] = v` for a key already present. -/
def setKey (m : FilterMap) (k : String) (v : PyVal) : FilterMap :=
  m.map (fun kv => if kv.1 == k then (kv.1, v) else kv)

/-- Dict item deletion `del result[key]`. -/
def delKey (m : FilterMap) (k : String) : FilterMap :=
  m.filter (fun kv => kv.1 != k)

/-- Translated from dates.py `preprocess_date_filters`.  The `parse` argument
abstracts `parse_natural_date` combined with the day-offset conversion
`(parsed.date() - date.today()).days`, whose internals live in the external
dateparser library: it returns the signed day offset, or none when the string
is unparseable. -/
def preprocess_date_filters (parse : String → Option Int) (filters : FilterMap) : FilterMap :=
  DAYS_FILTERS.foldl (fun result key =>
    match result.get? key with
    | some (.str s) =>
      match parse s with
      | some days => setKey result key (.int days)
      | none => delKey result key
    | _ => result) filters

/-- Task status enum (Task.Status in the generated scripts). -/
inductive TaskStatus where
  | available | blocked | completed | dropped | dueSoon | next | overdue
deriving DecidableEq, Repr

/-- The taskStatusMap built at the top of every generated script. -/
def taskStatusName : TaskStatus → String
  | .available => "Available"
  | .blocked => "Blocked"
  | .completed => "Completed"
  | .dropped => "Dropped"
  | .dueSoon => "DueSoon"
  | .next => "Next"
  | .overdue => "Overdue"

/-- Project status enum (Project.Status in the generated scripts). -/
inductive ProjectStatus where
  | active | done | dropped | onHold
deriving DecidableEq, Repr

/-- The projectStatusMap built at the top of every generated script. -/
def projectStatusName : ProjectStatus → String
  | .active => "Active"
  | .done => "Done"
  | .dropped => "Dropped"
  | .onHold => "OnHold"

/-- JSON-serializable JS values appearing in the projected output records.
objList covers an array of nested records (the tasks array of a project
node). -/
inductive JsVal where
  | null
  | bool (b : Bool)
  | num (n : Int)
  | str (s : String)
  | strList (l : List String)
  | objList (l : List (List (String × JsVal)))

/-- Abstract rendering of `date.toISOString()`; the exact ISO text does not
matter to any claim, only that a present date renders as a string and a
missing one as null. -/
def toISOString (t : Int) : String := toString t

/-- The JS pattern `item.x ? item.x.toISOString() : null`. -/
def optDate : Option Int → JsVal
  | some t => .str (toISOString t)
  | none => .null

/-- The JS pattern `item.estimatedMinutes || null` (0 is falsy, hence null). -/
def optMinutes : Option Int → JsVal
  | some m => if m == 0 then .null else .num m
  | none => .null

/-- The item record seen by query.py's generated `mapItem` switch.  Relation
attributes carry (name, id.primaryKey) pairs; attributes that are undefined
on some entity kinds are Options. -/
structure Item where
  id : String
  name : String
  note : Option String
  flagged : Bool
  taskStatus : Option TaskStatus
  status : Option ProjectStatus
  dueDate : Option Int
  deferDate : Option Int
  plannedDate : Option Int
  effectiveDueDate : Option Int
  effectiveDeferDate : Option Int
  effectivePlannedDate : Option Int
  completionDate : Option Int
  estimatedMinutes : Option Int
  tags : List String
  containingProject : Option (String × String)
  folder : Option (String × String)
  sequential : Bool
  flattenedTasksCount : Option Nat
  flattenedProjectsCount : Option Nat
  parent : Option String
  childrenCount : Option Nat
  inInbox : Bool
  modificationDate : Option Int
  creationDate : Option Int

/-- One arm of the `switch (field)` in query.py `_build_field_mapper`:
the output key/value pair assigned for a recognized field name, or none for
an unrecognized one (the switch falls through silently).  Note the aliases:
requesting "modified" writes the key "modificationDate" and "added" writes
"creationDate". -/
def mapItemField (item : Item) (field : String) : Option (String × JsVal) :=
  if field == "id" then some ("id", .str item.id)
  else if field == "name" then some ("name", .str item.name)
  else if field == "note" then some ("note", .str (item.note.getD ""))
  else if field == "flagged" then some ("flagged", .bool item.flagged)
  else if field == "taskStatus" then
    some ("taskStatus", .str (match item.taskStatus with
      | some s => taskStatusName s
      | none => "Unknown"))
  else if field == "status" then
    some ("status", .str (match item.status with
      | some s => projectStatusName s
      | none => "Unknown"))
  else if field == "dueDate" then some ("dueDate", optDate item.dueDate)
  else if field == "deferDate" then some ("deferDate", optDate item.deferDate)
  else if field == "plannedDate" then some ("plannedDate", optDate item.plannedDate)
  else if field == "effectiveDueDate" then
    some ("effectiveDueDate", optDate item.effectiveDueDate)
  else if field == "effectiveDeferDate" then
    some ("effectiveDeferDate", optDate item.effectiveDeferDate)
  else if field == "effectivePlannedDate" then
    some ("effectivePlannedDate", optDate item.effectivePlannedDate)
  else if field == "completionDate" then
    some ("completionDate", optDate item.completionDate)
  else if field == "estimatedMinutes" then
    some ("estimatedMinutes", optMinutes item.estimatedMinutes)
  else if field == "tagNames" then some ("tagNames", .strList item.tags)
  else if field == "projectName" then
    some ("projectName", .str (match item.containingProject with
      | some pr => pr.1
      | none => "Inbox"))
  else if field == "projectId" then
    some ("projectId", (match item.containingProject with
      | some pr => .str pr.2
      | none => .null))
  else if field == "folderName" then
    some ("folderName", (match item.folder with
      | some fl => .str fl.1
      | none => .null))
  else if field == "folderId" then
    some ("folderId", (match item.folder with
      | some fl => .str fl.2
      | none => .null))
  else if field == "sequential" then some ("sequential", .bool item.sequential)
  else if field == "taskCount" then
    some ("taskCount", .num (match item.flattenedTasksCount with
      | some c => (c : Int)
      | none => 0))
  else if field == "projectCount" then
    some ("projectCount", .num (match item.flattenedProjectsCount with
      | some c => (c : Int)
      | none => 0))
  else if field == "parentId" then
    some ("parentId", (match item.parent with
      | some p => .str p
      | none => .null))
  else if field == "hasChildren" then
    some ("hasChildren", .bool (match item.childrenCount with
      | some c => decide (0 < c)
      | none => false))
  else if field == "inInbox" then some ("inInbox", .bool item.inInbox)
  else if field == "modificationDate" || field == "modified" then
    some ("modificationDate", optDate item.modificationDate)
  else if field == "creationDate" || field == "added" then
    some ("creationDate", optDate item.creationDate)
  else none

/-- JS object property assignment `result[k] = v`: update in place when the
key exists, else append (objects keep first-insertion key order). -/
def objAssign (obj : List (String × JsVal)) (k : String) (v : JsVal) : List (String × JsVal) :=
  if obj.any (fun kv => kv.1 == k) then
    obj.map (fun kv => if kv.1 == k then (kv.1, v) else kv)
  else obj ++ [(k, v)]

/-- The projection loop shared by the generated mappers: walk the requested
field names, assigning the pair produced for each recognized one. -/
def foldAssign (g : String → Option (String × JsVal)) (fields : List String)
    (init : List (String × JsVal)) : List (String × JsVal) :=
  fields.foldl (fun result field =>
    match g field with
    | some kv => objAssign result kv.1 kv.2
    | none => result) init

/-- Default field lists per entity kind from query.py `_build_field_mapper`. -/
def default_fields (entity : String) : List String :=
  if entity == "tasks" then
    ["id", "name", "taskStatus", "flagged", "dueDate", "deferDate", "projectName", "tagNames"]
  else if entity == "projects" then
    ["id", "name", "status", "sequential", "dueDate", "deferDate", "folderName", "taskCount"]
  else ["id", "name", "projectCount"]

/-- Translated from the generated `mapItem` of query.py: project the item onto
the requested fields (defaults when the list is empty), starting from an empty
record - no type discriminator is ever added on this path. -/
def mapItem (entity : String) (fields : List String) (item : Item) : List (String × JsVal) :=
  let fieldsToInclude := if fields.isEmpty then default_fields entity else fields
  foldAssign (mapItemField item) fieldsToInclude []

/-- The task record seen by tree.py's generated `mapTask`. -/
structure TreeTask where
  id : String
  name : String
  taskStatus : TaskStatus
  flagged : Bool
  completed : Bool
  dueDate : Option Int
  deferDate : Option Int
  estimatedMinutes : Option Int
  tags : List String
  note : Option String

/-- The allFields object built by tree.py `mapTask`. -/
def taskAllFields (t : TreeTask) : List (String × JsVal) :=
  [("type", .str "task"),
   ("id", .str t.id),
   ("name", .str t.name),
   ("status", .str (taskStatusName t.taskStatus)),
   ("flagged", .bool t.flagged),
   ("completed", .bool t.completed),
   ("dueDate", optDate t.dueDate),
   ("deferDate", optDate t.deferDate),
   ("estimatedMinutes", optMinutes t.estimatedMinutes),
   ("tagNames", .strList t.tags),
   ("note", .str (t.note.getD ""))]

/-- Lookup of a key in a record (the JS `field in allFields` probe plus read). -/
def lookupField (l : List (String × JsVal)) (k : String) : Option JsVal :=
  (l.find? (fun kv => kv.1 == k)).map (fun kv => kv.2)

/-- Translated from tree.py `mapTask`: all fields when none are requested,
otherwise only the recognized requested fields on top of a record that always
starts with the type discriminator. -/
def mapTask (requestedFields : List String) (t : TreeTask) : List (String × JsVal) :=
  let allFields := taskAllFields t
  if requestedFields.isEmpty then allFields
  else
    foldAssign (fun f => (lookupField allFields f).map (fun v => (f, v)))
      requestedFields [("type", JsVal.str "task")]

/-- The project record seen by tree.py: `tasks` is the direct task list the
tasks array is built from, `flattenedTasksCount` the length of
project.flattenedTasks used for the taskCount field. -/
structure TreeProject where
  id : String
  name : String
  status : ProjectStatus
  sequential : Bool
  flagged : Bool
  dueDate : Option Int
  deferDate : Option Int
  estimatedMinutes : Option Int
  tags : List String
  note : Option String
  tasks : List TreeTask
  flattenedTasksCount : Nat

/-- The allFields object built by tree.py `mapProject`. -/
def projectAllFields (p : TreeProject) : List (String × JsVal) :=
  [("type", .str "project"),
   ("id", .str p.id),
   ("name", .str p.name),
   ("status", .str (projectStatusName p.status)),
   ("sequential", .bool p.sequential),
   ("flagged", .bool p.flagged),
   ("dueDate", optDate p.dueDate),
   ("deferDate", optDate p.deferDate),
   ("estimatedMinutes", optMinutes p.estimatedMinutes),
   ("taskCount", .num (p.flattenedTasksCount : Int)),
   ("tagNames", .strList p.tags)]

/-- Translated from tree.py `mapProject`: project the record onto the
requested fields (all fields when none requested), and, when include_tasks is
set, attach the filtered, mapped tasks array in both branches. -/
def mapProject (requestedFields : List String) (includeTasks : Bool)
    (tf : TreeTask → Bool) (p : TreeProject) : List (String × JsVal) :=
  let allFields := projectAllFields p
  let tasksVal : JsVal := .objList ((p.tasks.filter tf).map (mapTask requestedFields))
  if requestedFields.isEmpty then
    if includeTasks then objAssign allFields "tasks" tasksVal else allFields
  else
    let base := foldAssign (fun f => (lookupField allFields f).map (fun v => (f, v)))
      requestedFields [("type", JsVal.str "project")]
    if includeTasks then objAssign base "tasks" tasksVal else base

/-- Concrete sample item for the C3 counterexample. -/
def sampleItem : Item :=
  { id := "t1", name := "Sample", note := none, flagged := false,
    taskStatus := some .available, status := none,
    dueDate := none, deferDate := none, plannedDate := none,
    effectiveDueDate := none, effectiveDeferDate := none,
    effectivePlannedDate := none, completionDate := none,
    estimatedMinutes := none, tags := [], containingProject := none,
    folder := none, sequential := false, flattenedTasksCount := none,
    flattenedProjectsCount := none, parent := none, childrenCount := none,
    inInbox := true, modificationDate := none, creationDate := none }

/-- Concrete sample task for witnesses. -/
def sampleTreeTask : TreeTask :=
  { id := "t1", name := "Sample", taskStatus := .available, flagged := false,
    completed := false, dueDate := none, deferDate := none,
    estimatedMinutes := none, tags := [], note := none }

/-- Concrete sample project for witnesses. -/
def sampleTreeProject : TreeProject :=
  { id := "p1", name := "Proj", status := .active, sequential := false,
    flagged := false, dueDate := none, deferDate := none,
    estimatedMinutes := none, tags := [], note := none, tasks := [],
    flattenedTasksCount := 0 }

/-- Stable merge of two lists under a boolean "comes no later than" test;
the left element wins ties, as in a stable sort. -/
def mergeBy (le : α → α → Bool) : List α → List α → List α
  | [], ys => ys
  | xs, [] => xs
  | x :: xs, y :: ys =>
    if le x y then x :: mergeBy le xs (y :: ys) else y :: mergeBy le (x :: xs) ys
termination_by l1 l2 => l1.length + l2.length

/-- Model of JS `Array.prototype.sort(cmp)` (stable since ES2019) as a stable
merge sort; an element sorts no later than another when the comparator does
not return a positive number. -/
def jsArraySort (le : α → α → Bool) (l : List α) : List α :=
  if h : l.length ≤ 1 then l
  else
    mergeBy le (jsArraySort le (l.take (l.length / 2)))
      (jsArraySort le (l.drop (l.length / 2)))
termination_by l.length
decreasing_by
  · simp only [List.length_take]
    omega
  · simp only [List.length_drop]
    omega

/-- The comparator generated by query.py sort_logic: a null or missing sort
value compares after anything (returns 1 when the left value is null, -1 when
only the right is), otherwise the values are compared by the attribute's
order, with the sign flipped for descending sorts.  `vlt` abstracts the JS
`<` on the (homogeneous) attribute values, Date values being compared by
getTime. -/
def jsCompareKey (vlt : α → α → Bool) (dir : Int) (a b : Option α) : Int :=
  match a with
  | none => 1
  | some x =>
    match b with
    | none => -1
    | some y => if vlt x y then -dir else if vlt y x then dir else 0

/-- The generated sort stage: `filtered.sort((a, b) => ...)` keyed on the
attribute named by sort_by (`key` reads that attribute). -/
def sortStage (key : β → Option α) (vlt : α → α → Bool) (sortOrder : String)
    (l : List β) : List β :=
  let dir : Int := if sortOrder == "desc" then -1 else 1
  jsArraySort (fun a b => decide (jsCompareKey vlt dir (key a) (key b) ≤ 0)) l

/-- JS `l.slice(0, n)`: a negative end counts from the end of the array. -/
def jsSliceTo (l : List β) (n : Int) : List β :=
  if 0 ≤ n then l.take n.toNat else l.take (l.length - n.natAbs)

/-- The generated limit stage.  Python emits the slice only under
`if limit:`, so a missing limit and a limit of 0 both leave the list whole. -/
def limitStage (limit : Option Int) (l : List β) : List β :=
  match limit with
  | none => l
  | some n => if n == 0 then l else jsSliceTo l n

/-- The sort-then-limit tail of query_omnifocus: sorting happens only when a
sort key was supplied, and the slice always runs after the sort. -/
def sortLimit (sortKey : Option (β → Option α)) (vlt : α → α → Bool)
    (sortOrder : String) (limit : Option Int) (l : List β) : List β :=
  let sorted := match sortKey with
    | none => l
    | some key => sortStage key vlt sortOrder l
  limitStage limit sorted

/-- The property "the sort value is present" used to state null placement. -/
def PartitionedBy (P : β → Bool) (l : List β) : Prop :=
  ∃ l1 l2, l = l1 ++ l2 ∧ (∀ x ∈ l1, P x = true) ∧ (∀ x ∈ l2, P x = false)

/-- JS `s.toLowerCase()` and Python `s.lower()`, modelled character-wise
(structurally recursive so that concrete instances evaluate). -/
def strToLower (s : String) : String := String.mk (s.data.map Char.toLower)

/-- JS substring containment `hay.includes(needle)`. -/
def strIncludes (hay needle : String) : Bool :=
  decide (List.IsInfix needle.toList hay.toList)

/-- Rendering of a Python value interpolated into an f-string (only string
values occur in practice; the other arms model `str(value)` loosely and no
claim depends on them). -/
def pyStr : PyVal → String
  | .str s => s
  | .int n => toString n
  | .bool b => if b then "True" else "False"
  | .strList l => String.intercalate ", " l

/-- The project_id condition of `_build_filter_conditions` (emitted when the
value is truthy): pass iff the item has a containing project with exactly the
given id. -/
def condProjectId (v : Option PyVal) (item : Item) : Bool :=
  match v with
  | some v =>
    if truthy v then
      match item.containingProject with
      | none => false
      | some pr => pr.2 == pyStr v
    else true
  | none => true

/-- The project_name condition: case-insensitive substring match on the
containing project name; an item with no containing project passes only when
the (lowercased) filter text is exactly "inbox".  A truthy non-string value
makes the Python build raise before any script runs (see the tool-boundary
model); the evaluator is therefore only defined on string values. -/
def condProjectName (v : Option PyVal) (item : Item) : Bool :=
  match v with
  | some (.str s) =>
    if s != "" then
      let pl := strToLower s
      match item.containingProject with
      | some pr => strIncludes (strToLower pr.1) pl
      | none => pl == "inbox"
    else true
  | _ => true

/-- The folder_id condition: pass iff the item has a folder with the id. -/
def condFolderId (v : Option PyVal) (item : Item) : Bool :=
  match v with
  | some v =>
    if truthy v then
      match item.folder with
      | none => false
      | some fl => fl.2 == pyStr v
    else true
  | none => true

/-- The tags condition: OR across the filter's tag list (JS
`filterTags.some(ft => itemTagNames.includes(ft))`). -/
def condTags (v : Option PyVal) (item : Item) : Bool :=
  match v with
  | some (.strList ts) =>
    if !ts.isEmpty then ts.any (fun ft => item.tags.contains ft) else true
  | _ => true

/-- The status condition: OR across the filter's status names against the
mapped task status (an undefined status is never contained in the list). -/
def condStatus (v : Option PyVal) (item : Item) : Bool :=
  match v with
  | some (.strList ss) =>
    if !ss.isEmpty then
      match item.taskStatus with
      | some st => ss.contains (taskStatusName st)
      | none => false
    else true
  | _ => true

/-- The flagged condition (emitted whenever the key is present, not only when
truthy): strict equality against the Python truthiness of the value. -/
def condFlagged (v : Option PyVal) (item : Item) : Bool :=
  match v with
  | some v => item.flagged == truthy v
  | none => true

/-- The due_within condition keyed by a normalized integer day offset (the
only value shape the generated arithmetic is defined on). -/
def condDueWithin (v : Option PyVal) (now : Int) (item : Item) : Bool :=
  match v with
  | some (.int n) => dueWithinCond now n item.dueDate
  | _ => true

/-- The deferred_until condition: a defer date exists and is at most
now + N days; no lower bound. -/
def condDeferredUntil (v : Option PyVal) (now : Int) (item : Item) : Bool :=
  match v with
  | some (.int n) =>
    match item.deferDate with
    | none => false
    | some d => decide (d ≤ addDays now n)
  | _ => true

/-- The planned_within condition: same two-sided window as due_within against
the planned date. -/
def condPlannedWithin (v : Option PyVal) (now : Int) (item : Item) : Bool :=
  match v with
  | some (.int n) => dueWithinCond now n item.plannedDate
  | _ => true

/-- The note of the item is non-null and non-blank (JS
`item.note && item.note.trim() !== ""`). -/
def noteNonBlank (item : Item) : Bool :=
  match item.note with
  | none => false
  | some s => s.trim != ""

/-- The has_note condition: presence of a non-blank note, or its inverse. -/
def condHasNote (v : Option PyVal) (item : Item) : Bool :=
  match v with
  | some v => if truthy v then noteNonBlank item else !noteNonBlank item
  | none => true

/-- Translated from query.py `_build_filter_conditions` (lines 8-128) plus the
generated item filter: the per-key conditions are emitted in fixed source
order and the generated function returns false as soon as one fails, i.e. the
filter is the conjunction of the per-key predicates; the dict is only ever
probed by key, never iterated. -/
def evalFilters (f : FilterMap) (now : Int) (item : Item) : Bool :=
  condProjectId (f.get? "project_id") item
  && condProjectName (f.get? "project_name") item
  && condFolderId (f.get? "folder_id") item
  && condTags (f.get? "tags") item
  && condStatus (f.get? "status") item
  && condFlagged (f.get? "flagged") item
  && condDueWithin (f.get? "due_within") now item
  && condDeferredUntil (f.get? "deferred_until") now item
  && condPlannedWithin (f.get? "planned_within") now item
  && condHasNote (f.get? "has_note") item

/-- The TASK_FILTER_KEYS set literal of validation.py. -/
def TASK_FILTER_KEYS : List String :=
  ["item_ids", "project_id", "project_name", "flagged", "tags", "status",
   "due_within", "due_after", "due_before", "deferred_until", "deferred_on",
   "planned_within", "has_note", "completed_within", "completed_after",
   "completed_before", "modified_before"]

/-- The PROJECT_FILTER_KEYS set literal of validation.py. -/
def PROJECT_FILTER_KEYS : List String :=
  ["item_ids", "folder_id", "status", "available", "flagged", "sequential",
   "tags", "due_within", "due_after", "due_before", "deferred_until",
   "deferred_on", "has_note", "modified_before", "was_deferred", "stalled"]

/-- `TASK_FILTER_KEYS if entity_type == "tasks" else PROJECT_FILTER_KEYS`. -/
def allowedKeysFor (entity_type : String) : List String :=
  if entity_type == "tasks" then TASK_FILTER_KEYS else PROJECT_FILTER_KEYS

/-- Python `sorted` over strings modelled with the same stable sort. -/
def sortedStrings (l : List String) : List String :=
  jsArraySort (fun a b => decide (a ≤ b)) l

/-- The set `set(filters.keys()) - allowed_keys` (deduplicated; its iteration
order is immaterial because it is sorted before use). -/
def unknownKeys (filters : FilterMap) (entity_type : String) : List String :=
  ((filters.map Prod.fst).filter (fun k => !(allowedKeysFor entity_type).contains k)).dedup

/-- The ValueError message format of validation.py. -/
def renderValidationError (entity_type : String)
    (sortedUnknown sortedValid : List String) : String :=
  "Unknown filter key(s) for " ++ entity_type ++ ": "
    ++ String.intercalate ", " sortedUnknown
    ++ ". Valid keys: " ++ String.intercalate ", " sortedValid

/-- Translated from validation.py `validate_filters`: raising the ValueError
is modelled as returning it in the error branch of an Except. -/
def validate_filters (filters : FilterMap) (entity_type : String) : Except String Unit :=
  if filters.isEmpty then .ok ()
  else
    let unknown := unknownKeys filters entity_type
    if unknown.isEmpty then .ok ()
    else
      .error (renderValidationError entity_type (sortedStrings unknown)
        (sortedStrings (allowedKeysFor entity_type)))

/-- A folder reference (id.primaryKey, name) for the start-folder lookup. -/
structure FolderRef where
  id : String
  name : String
deriving DecidableEq, Repr

/-- Outcome of the parent_name start-folder logic of tree.py: either a
traversal root, or a structured error - returned before any tree node is
built - optionally carrying the id and name of every partial match. -/
inductive StartFolderResult where
  | found (f : FolderRef)
  | errorNoMatch (message : String)
  | errorSuggestions (message : String) (suggestions : List FolderRef)
deriving DecidableEq, Repr

/-- Translated from tree.py (start_folder_logic, parent_name branch): try an
exact case-insensitive name match first; otherwise collect partial
(substring) matches and use a unique one, report all of them as suggestions
when there are several, or report a plain not-found error. -/
def resolveStartFolder (folders : List FolderRef) (parentName : String) : StartFolderResult :=
  let pl := strToLower parentName
  match folders.find? (fun f => strToLower f.name == pl) with
  | some f => .found f
  | none =>
    match folders.filter (fun f => strIncludes (strToLower f.name) pl) with
    | [f] => .found f
    | [] => .errorNoMatch ("Folder not found with name: " ++ parentName)
    | f1 :: f2 :: rest =>
      .errorSuggestions ("Folder not found with name: " ++ parentName)
        (f1 :: f2 :: rest)

/-- What a tool invocation hands back across the MCP boundary: a JSON result
string, a JSON object with an error key (built by the except branch), or a
Python exception that escaped the function (no JSON at all). -/
inductive ToolOutcome where
  | jsonResult (body : String)
  | jsonErrorObj (message : String)
  | raised (message : String)
deriving DecidableEq, Repr

/-- Shared control flow of query_omnifocus, search (via omnijs_json_response)
and get_tree: parameter handling and script construction run BEFORE the
try block, so an exception there propagates; only the script-execution call
is guarded, and its failure is rendered as a JSON error object. -/
def toolBoundary (build : Except String σ) (exec : σ → Except String String) : ToolOutcome :=
  match build with
  | .error e => .raised e
  | .ok s =>
    match exec s with
    | .ok r => .jsonResult r
    | .error e => .jsonErrorObj e

/-- The fallible part of query.py script construction: the only step of
`_build_filter_conditions` that can raise is `filters["project_name"].lower()`
on a truthy non-string value (AttributeError). -/
def buildQueryScript (filters : FilterMap) : Except String Unit :=
  match filters.get? "project_name" with
  | some v =>
    if truthy v then
      match v with
      | .str _ => .ok ()
      | _ => .error "AttributeError: lower"
    else .ok ()
  | none => .ok ()

/-- query_omnifocus as seen from the tool boundary: build the script, then run
the executor under the try block. -/
def query_omnifocus_boundary (filters : FilterMap)
    (exec : Unit → Except String String) : ToolOutcome :=
  toolBoundary (buildQueryScript filters) exec

/-- search as seen from the tool boundary: the date preprocessing is total, so
the build step never raises. -/
def search_boundary (parse : String → Option Int) (filters : FilterMap)
    (exec : FilterMap → Except String String) : ToolOutcome :=
  toolBoundary (.ok (preprocess_date_filters parse filters)) exec

/-- A snapshot of the folder hierarchy: a folder with its id, name, child
folders (folder.folders) and directly contained projects (folder.projects). -/
inductive FolderT where
  | node (id name : String) (subfolders : List FolderT) (projects : List TreeProject)

/-- The traversal options of get_tree that shape the walk. -/
structure TreeOpts where
  maxDepth : Option Int
  includeRootProjects : Bool
  includeFolders : Bool
  includeProjects : Bool
  includeTasks : Bool

/-- The generated guard `maxDepth !== null && currentDepth >= maxDepth`. -/
def atDepthLimit (maxDepth : Option Int) (depth : Int) : Bool :=
  match maxDepth with
  | some m => decide (depth ≥ m)
  | none => false

/-- Tasks of a project surviving taskPassesFilter, as counted by the
taskCount++ loops of both summary and tree mode (0 when include_tasks is
off). -/
def projectTaskCount (includeTasks : Bool) (tf : TreeTask → Bool) (p : TreeProject) : Nat :=
  if includeTasks then (p.tasks.filter tf).length else 0

/-- The three counters of get_tree (folderCount, projectCount, taskCount). -/
structure TreeCounts where
  folders : Nat
  projects : Nat
  tasks : Nat
deriving DecidableEq, Repr

/-- Componentwise addition of counter increments. -/
def TreeCounts.add (a b : TreeCounts) : TreeCounts :=
  ⟨a.folders + b.folders, a.projects + b.projects, a.tasks + b.tasks⟩

/-- Total of a list of counter increments. -/
def sumCounts (l : List TreeCounts) : TreeCounts := l.foldl TreeCounts.add ⟨0, 0, 0⟩

/-- Translated from tree.py `countProjectsInFolder` (summary mode): count this
folder, stop at the depth limit, otherwise recurse into child folders and
count the projects of this folder passing the filter (counting their passing
tasks when include_tasks is on).  Note it consults neither include_folders
nor include_projects. -/
def countProjectsInFolder (opts : TreeOpts) (pf : TreeProject → Bool)
    (tf : TreeTask → Bool) : FolderT → Int → TreeCounts
  | .node _ _ subs projs, depth =>
    if atDepthLimit opts.maxDepth depth then ⟨1, 0, 0⟩
    else
      let subCounts := sumCounts (subs.attach.map (fun s =>
        countProjectsInFolder opts pf tf s.1 (depth + 1)))
      let passing := projs.filter pf
      ⟨1 + subCounts.folders,
       subCounts.projects + passing.length,
       subCounts.tasks + (passing.map (projectTaskCount opts.includeTasks tf)).sum⟩
termination_by f _ => sizeOf f
decreasing_by
  have := List.sizeOf_lt_of_mem s.2
  simp only [FolderT.node.sizeOf_spec]
  omega

/-- Translated from tree.py `hasMatchingProjects`: does this folder or any
descendant contain a project passing the filter. -/
def hasMatchingProjects (pf : TreeProject → Bool) : FolderT → Bool
  | .node _ _ subs projs =>
    projs.any pf || subs.attach.any (fun s => hasMatchingProjects pf s.1)
termination_by f => sizeOf f
decreasing_by
  have := List.sizeOf_lt_of_mem s.2
  simp only [FolderT.node.sizeOf_spec]
  omega

/-- A node of the produced tree: a folder with children, or a mapped project
record. -/
inductive TreeNode where
  | folderNode (id name : String) (children : List TreeNode)
  | projectNode (record : List (String × JsVal))

/-- The children array of a node (a project node has none). -/
def TreeNode.childrenOf : TreeNode → List TreeNode
  | .folderNode _ _ c => c
  | .projectNode _ => []

/-- Translated from tree.py `buildFolderTree` (tree mode): the counters are
global in the script, so every recursive call contributes its counts even
when the child subtree is later left out of the children array; projects are
visited (and counted, and their tasks counted inside mapProject) only under
include_projects, child folders only under include_folders. -/
def buildFolderTree (opts : TreeOpts) (pf : TreeProject → Bool) (tf : TreeTask → Bool)
    (requested : List String) : FolderT → Int → TreeNode × TreeCounts
  | .node fid fname subs projs, depth =>
    if atDepthLimit opts.maxDepth depth then (.folderNode fid fname [], ⟨1, 0, 0⟩)
    else
      let childResults :=
        if opts.includeFolders then
          subs.attach.map (fun s =>
            (s.1, buildFolderTree opts pf tf requested s.1 (depth + 1)))
        else []
      let childrenIncluded :=
        (childResults.filter (fun pr =>
          !pr.2.1.childrenOf.isEmpty || hasMatchingProjects pf pr.1)).map
          (fun pr => pr.2.1)
      let passing := if opts.includeProjects then projs.filter pf else []
      let projectNodes := passing.map (fun p =>
        TreeNode.projectNode (mapProject requested opts.includeTasks tf p))
      let subCounts := sumCounts (childResults.map (fun pr => pr.2.2))
      (.folderNode fid fname (childrenIncluded ++ projectNodes),
       ⟨1 + subCounts.folders,
        subCounts.projects + passing.length,
        subCounts.tasks + (passing.map (projectTaskCount opts.includeTasks tf)).sum⟩)
termination_by f _ => sizeOf f
decreasing_by
  have := List.sizeOf_lt_of_mem s.2
  simp only [FolderT.node.sizeOf_spec]
  omega

/-- Translated from the `collectProjects` closure of get_tree (the
include_folders = false, include_projects = true branch): gather passing
projects of the whole subtree, ignoring the depth limit, counting projects
(and their tasks inside mapProject) but no folders. -/
def collectProjects (opts : TreeOpts) (pf : TreeProject → Bool) (tf : TreeTask → Bool)
    (requested : List String) : FolderT → List TreeNode × TreeCounts
  | .node _ _ subs projs =>
    let passing := projs.filter pf
    let nodes := passing.map (fun p =>
      TreeNode.projectNode (mapProject requested opts.includeTasks tf p))
    let subResults := subs.attach.map (fun s => collectProjects opts pf tf requested s.1)
    (nodes ++ (subResults.map (fun r => r.1)).flatten,
     TreeCounts.add
       ⟨0, passing.length, (passing.map (projectTaskCount opts.includeTasks tf)).sum⟩
       (sumCounts (subResults.map (fun r => r.2))))
termination_by f => sizeOf f
decreasing_by
  have := List.sizeOf_lt_of_mem s.2
  simp only [FolderT.node.sizeOf_spec]
  omega

/-- Translated from the summary branch of get_tree: walk every root folder
with countProjectsInFolder (regardless of the include toggles), then count
passing root-level projects whenever include_root_projects is on. -/
def summaryCounts (opts : TreeOpts) (pf : TreeProject → Bool) (tf : TreeTask → Bool)
    (rootFolders : List FolderT) (rootProjects : List TreeProject) : TreeCounts :=
  let folderWalk := sumCounts (rootFolders.map (fun f => countProjectsInFolder opts pf tf f 0))
  let rootPart : TreeCounts :=
    if opts.includeRootProjects then
      let passing := rootProjects.filter pf
      ⟨0, passing.length, (passing.map (projectTaskCount opts.includeTasks tf)).sum⟩
    else ⟨0, 0, 0⟩
  folderWalk.add rootPart

/-- Translated from the tree-construction branch of get_tree: build folder
trees under include_folders (keeping only those with children), or flatten
projects under include_projects with one folderCount increment per root
folder, then append passing root-level projects when both
include_root_projects and include_projects are on. -/
def treeModeResult (opts : TreeOpts) (pf : TreeProject → Bool) (tf : TreeTask → Bool)
    (requested : List String) (rootFolders : List FolderT)
    (rootProjects : List TreeProject) : List TreeNode × TreeCounts :=
  let walk : List TreeNode × TreeCounts :=
    if opts.includeFolders then
      let built := rootFolders.map (fun f => buildFolderTree opts pf tf requested f 0)
      ((built.filter (fun pr => !pr.1.childrenOf.isEmpty)).map (fun pr => pr.1),
       sumCounts (built.map (fun pr => pr.2)))
    else if opts.includeProjects then
      let collected := rootFolders.map (fun f => collectProjects opts pf tf requested f)
      ((collected.map (fun r => r.1)).flatten,
       TreeCounts.add ⟨rootFolders.length, 0, 0⟩
         (sumCounts (collected.map (fun r => r.2))))
    else ([], ⟨0, 0, 0⟩)
  let rootPart : List TreeNode × TreeCounts :=
    if opts.includeRootProjects && opts.includeProjects then
      let passing := rootProjects.filter pf
      (passing.map (fun p =>
        TreeNode.projectNode (mapProject requested opts.includeTasks tf p)),
       ⟨0, passing.length, (passing.map (projectTaskCount opts.includeTasks tf)).sum⟩)
    else ([], ⟨0, 0, 0⟩)
  (walk.1 ++ rootPart.1, walk.2.add rootPart.2)

/-- A one-folder, one-project snapshot for the C7 counterexample. -/
def cxFolder : FolderT := .node "f1" "Folder" [] [sampleTreeProject]

/-- Traversal options with include_projects switched off (everything else at
its default). -/
def optsNoProjects : TreeOpts :=
  { maxDepth := none, includeRootProjects := true, includeFolders := true,
    includeProjects := false, includeTasks := false }

/-- The default traversal options of get_tree. -/
def optsDefault : TreeOpts :=
  { maxDepth := none, includeRootProjects := true, includeFolders := true,
    includeProjects := true, includeTasks := false }

/-- C1 counterexample input: one millisecond grid; the clock reads 1000 ms
past midnight of day 0 and the task is due 500 ms past that midnight. -/
theorem C1_counterexample :
    dueWithinCond 1000 1 (some 500) = false ∧ dueWithinClaim 1000 1 (some 500) = true := by
  constructor <;> decide

/-- C1 (amended): the generated due_within filter matches exactly when the
entity has a due date d with now ≤ d ≤ now + N days, where now is the instant
of evaluation (`new Date()`), not the start of the current day.  In particular
a due date of exactly now + N days matches whenever N ≥ 0, a due date of
now + (N+1) days never matches, and a missing due date never matches. -/
theorem C1_amended (now n : Int) (dd : Option Int) :
    (dueWithinCond now n dd = true ↔ ∃ d, dd = some d ∧ now ≤ d ∧ d ≤ addDays now n)
    ∧ (0 ≤ n → dueWithinCond now n (some (addDays now n)) = true)
    ∧ dueWithinCond now n (some (addDays now (n + 1))) = false
    ∧ dueWithinCond now n none = false
    ∧ (∀ it : Item, evalFilters [("due_within", PyVal.int n)] now it
        = dueWithinCond now n it.dueDate) := by
  refine ⟨?_, ?_, ?_, rfl, ?_⟩
  · cases dd with
    | none => simp [dueWithinCond]
    | some d =>
      simp only [dueWithinCond, addDays]
      constructor
      · intro h
        refine ⟨d, rfl, ?_, ?_⟩ <;> by_contra hc <;> simp_all
      · rintro ⟨d2, hd2, h1, h2⟩
        cases hd2
        have : ¬(d > now + n * msPerDay ∨ d < now) := by
          simp only [msPerDay] at *
          omega
        simp [this]
  · intro hn
    have h1 : ¬(addDays now n > addDays now n ∨ addDays now n < now) := by
      simp only [addDays, msPerDay] at *
      omega
    simp only [dueWithinCond]
    rw [if_neg h1]
  · have h1 : addDays now (n + 1) > addDays now n := by
      simp only [addDays, msPerDay]
      omega
    simp only [dueWithinCond]
    rw [if_pos (Or.inl h1)]
  · intro it
    have h0 : evalFilters [("due_within", PyVal.int n)] now it
        = (((dueWithinCond now n it.dueDate && true) && true) && true) := rfl
    rw [h0, Bool.and_true, Bool.and_true, Bool.and_true]

/-- C1 amended witness: concrete instance at now = 0, N = 2. -/
theorem C1_amended_witness :
    dueWithinCond 0 2 (some 0) = true ∧ dueWithinCond 0 2 (some (addDays 0 2)) = true := by
  have h := C1_amended 0 2 (some 0)
  exact ⟨h.1.mpr ⟨0, rfl, by decide, by decide⟩, h.2.1 (by decide)⟩

/-- C2: evaluating the preprocessing step at the failing input.  A
deferred_on key is never touched: an unparseable string value (parse oracle
returning none) is retained instead of dropped, and a parseable one
("tomorrow", day offset 1) is not converted - contradicting the repository
test `test_search_with_deferred_on_natural_language` and the search
docstring, which promise natural-language support for deferred_on. -/
theorem C2_code_bug :
    preprocess_date_filters (fun _ => none) [("deferred_on", PyVal.str "nonsense xyz")]
      = [("deferred_on", PyVal.str "nonsense xyz")]
    ∧ preprocess_date_filters (fun _ => some 1) [("deferred_on", PyVal.str "tomorrow")]
      = [("deferred_on", PyVal.str "tomorrow")]
    ∧ preprocess_date_filters (fun _ => none) [("due_within", PyVal.str "nonsense xyz")]
      = [] := by
  refine ⟨rfl, rfl, rfl⟩

/-- Keys are preserved or extended by one JS property assignment. -/
theorem mem_keys_objAssign (a : String) (r : List (String × JsVal)) (k : String) (v : JsVal) :
    a ∈ (objAssign r k v).map Prod.fst ↔ a ∈ r.map Prod.fst ∨ a = k := by
  unfold objAssign
  by_cases h : r.any (fun kv => kv.1 == k)
  · rw [if_pos h]
    have hkeys : (r.map (fun kv => if kv.1 == k then (kv.1, v) else kv)).map Prod.fst
        = r.map Prod.fst := by
      rw [List.map_map]
      apply List.map_congr_left
      intro kv _
      show (if kv.1 == k then (kv.1, v) else kv).1 = kv.1
      split <;> rfl
    rw [hkeys]
    constructor
    · exact Or.inl
    · rintro (h2 | rfl)
      · exact h2
      · rcases List.any_eq_true.mp h with ⟨kv, hkv, hbeq⟩
        have : kv.1 = a := by simpa using hbeq
        exact this ▸ List.mem_map_of_mem Prod.fst hkv
  · rw [if_neg h]
    simp

/-- Unfolding step of the projection loop. -/
theorem foldAssign_cons (g : String → Option (String × JsVal)) (f : String)
    (fs : List String) (init : List (String × JsVal)) :
    foldAssign g (f :: fs) init
      = foldAssign g fs (match g f with
        | some kv => objAssign init kv.1 kv.2
        | none => init) := rfl

/-- Keys produced by the shared projection loop: a key of the initial record,
or the output key of a recognized requested field. -/
theorem mem_keys_foldAssign (g : String → Option (String × JsVal)) (fields : List String)
    (init : List (String × JsVal)) (a : String) :
    a ∈ (foldAssign g fields init).map Prod.fst
      ↔ a ∈ init.map Prod.fst ∨ ∃ f ∈ fields, ∃ v, g f = some (a, v) := by
  induction fields generalizing init with
  | nil => simp [foldAssign]
  | cons f fs ih =>
    rw [foldAssign_cons]
    rcases hg : g f with _ | ⟨k, v⟩
    · simp only [hg]
      rw [ih]
      constructor
      · rintro (h | ⟨f2, hf2, hv⟩)
        · exact Or.inl h
        · exact Or.inr ⟨f2, List.mem_cons_of_mem f hf2, hv⟩
      · rintro (h | ⟨f2, hf2, w, hv⟩)
        · exact Or.inl h
        · rcases List.mem_cons.mp hf2 with rfl | hf2
          · rw [hg] at hv
            exact absurd hv (by simp)
          · exact Or.inr ⟨f2, hf2, w, hv⟩
    · simp only [hg]
      rw [ih, mem_keys_objAssign]
      constructor
      · rintro ((h | rfl) | ⟨f2, hf2, w, hv⟩)
        · exact Or.inl h
        · exact Or.inr ⟨f, List.mem_cons_self f fs, v, by rw [hg]⟩
        · exact Or.inr ⟨f2, List.mem_cons_of_mem f hf2, w, hv⟩
      · rintro (h | ⟨f2, hf2, w, hv⟩)
        · exact Or.inl (Or.inl h)
        · rcases List.mem_cons.mp hf2 with rfl | hf2
          · rw [hg] at hv
            have heq : k = a := congrArg Prod.fst (Option.some.inj hv)
            exact Or.inl (Or.inr heq.symm)
          · exact Or.inr ⟨f2, hf2, w, hv⟩

set_option maxHeartbeats 2000000 in
/-- The mapItem switch never writes the key "type". -/
theorem mapItemField_ne_type (item : Item) (f : String) (v : JsVal) :
    mapItemField item f ≠ some ("type", v) := by
  intro h
  unfold mapItemField at h
  by_cases c1 : (f == "id") = true
  · rw [if_pos c1, Option.some.injEq, Prod.mk.injEq] at h
    exact absurd h.1 (by decide)
  rw [if_neg c1] at h
  by_cases c2 : (f == "name") = true
  · rw [if_pos c2, Option.some.injEq, Prod.mk.injEq] at h
    exact absurd h.1 (by decide)
  rw [if_neg c2] at h
  by_cases c3 : (f == "note") = true
  · rw [if_pos c3, Option.some.injEq, Prod.mk.injEq] at h
    exact absurd h.1 (by decide)
  rw [if_neg c3] at h
  by_cases c4 : (f == "flagged") = true
  · rw [if_pos c4, Option.some.injEq, Prod.mk.injEq] at h
    exact absurd h.1 (by decide)
  rw [if_neg c4] at h
  by_cases c5 : (f == "taskStatus") = true
  · rw [if_pos c5, Option.some.injEq, Prod.mk.injEq] at h
    exact absurd h.1 (by decide)
  rw [if_neg c5] at h
  by_cases c6 : (f == "status") = true
  · rw [if_pos c6, Option.some.injEq, Prod.mk.injEq] at h
    exact absurd h.1 (by decide)
  rw [if_neg c6] at h
  by_cases c7 : (f == "dueDate") = true
  · rw [if_pos c7, Option.some.injEq, Prod.mk.injEq] at h
    exact absurd h.1 (by decide)
  rw [if_neg c7] at h
  by_cases c8 : (f == "deferDate") = true
  · rw [if_pos c8, Option.some.injEq, Prod.mk.injEq] at h
    exact absurd h.1 (by decide)
  rw [if_neg c8] at h
  by_cases c9 : (f == "plannedDate") = true
  · rw [if_pos c9, Option.some.injEq, Prod.mk.injEq] at h
    exact absurd h.1 (by decide)
  rw [if_neg c9] at h
  by_cases c10 : (f == "effectiveDueDate") = true
  · rw [if_pos c10, Option.some.injEq, Prod.mk.injEq] at h
    exact absurd h.1 (by decide)
  rw [if_neg c10] at h
  by_cases c11 : (f == "effectiveDeferDate") = true
  · rw [if_pos c11, Option.some.injEq, Prod.mk.injEq] at h
    exact absurd h.1 (by decide)
  rw [if_neg c11] at h
  by_cases c12 : (f == "effectivePlannedDate") = true
  · rw [if_pos c12, Option.some.injEq, Prod.mk.injEq] at h
    exact absurd h.1 (by decide)
  rw [if_neg c12] at h
  by_cases c13 : (f == "completionDate") = true
  · rw [if_pos c13, Option.some.injEq, Prod.mk.injEq] at h
    exact absurd h.1 (by decide)
  rw [if_neg c13] at h
  by_cases c14 : (f == "estimatedMinutes") = true
  · rw [if_pos c14, Option.some.injEq, Prod.mk.injEq] at h
    exact absurd h.1 (by decide)
  rw [if_neg c14] at h
  by_cases c15 : (f == "tagNames") = true
  · rw [if_pos c15, Option.some.injEq, Prod.mk.injEq] at h
    exact absurd h.1 (by decide)
  rw [if_neg c15] at h
  by_cases c16 : (f == "projectName") = true
  · rw [if_pos c16, Option.some.injEq, Prod.mk.injEq] at h
    exact absurd h.1 (by decide)
  rw [if_neg c16] at h
  by_cases c17 : (f == "projectId") = true
  · rw [if_pos c17, Option.some.injEq, Prod.mk.injEq] at h
    exact absurd h.1 (by decide)
  rw [if_neg c17] at h
  by_cases c18 : (f == "folderName") = true
  · rw [if_pos c18, Option.some.injEq, Prod.mk.injEq] at h
    exact absurd h.1 (by decide)
  rw [if_neg c18] at h
  by_cases c19 : (f == "folderId") = true
  · rw [if_pos c19, Option.some.injEq, Prod.mk.injEq] at h
    exact absurd h.1 (by decide)
  rw [if_neg c19] at h
  by_cases c20 : (f == "sequential") = true
  · rw [if_pos c20, Option.some.injEq, Prod.mk.injEq] at h
    exact absurd h.1 (by decide)
  rw [if_neg c20] at h
  by_cases c21 : (f == "taskCount") = true
  · rw [if_pos c21, Option.some.injEq, Prod.mk.injEq] at h
    exact absurd h.1 (by decide)
  rw [if_neg c21] at h
  by_cases c22 : (f == "projectCount") = true
  · rw [if_pos c22, Option.some.injEq, Prod.mk.injEq] at h
    exact absurd h.1 (by decide)
  rw [if_neg c22] at h
  by_cases c23 : (f == "parentId") = true
  · rw [if_pos c23, Option.some.injEq, Prod.mk.injEq] at h
    exact absurd h.1 (by decide)
  rw [if_neg c23] at h
  by_cases c24 : (f == "hasChildren") = true
  · rw [if_pos c24, Option.some.injEq, Prod.mk.injEq] at h
    exact absurd h.1 (by decide)
  rw [if_neg c24] at h
  by_cases c25 : (f == "inInbox") = true
  · rw [if_pos c25, Option.some.injEq, Prod.mk.injEq] at h
    exact absurd h.1 (by decide)
  rw [if_neg c25] at h
  by_cases c26 : (f == "modificationDate" || f == "modified") = true
  · rw [if_pos c26, Option.some.injEq, Prod.mk.injEq] at h
    exact absurd h.1 (by decide)
  rw [if_neg c26] at h
  by_cases c27 : (f == "creationDate" || f == "added") = true
  · rw [if_pos c27, Option.some.injEq, Prod.mk.injEq] at h
    exact absurd h.1 (by decide)
  rw [if_neg c27] at h
  exact Option.noConfusion h

/-- A record key can be looked up exactly when it is among the keys. -/
theorem lookupField_isSome_iff (l : List (String × JsVal)) (k : String) :
    (lookupField l k).isSome = true ↔ k ∈ l.map Prod.fst := by
  unfold lookupField
  cases hf : l.find? (fun kv => kv.1 == k) with
  | none =>
    rw [List.find?_eq_none] at hf
    simp only [Option.map_none', Option.isSome_none, Bool.false_eq_true, false_iff]
    intro hk
    rcases List.mem_map.mp hk with ⟨kv, hkv, rfl⟩
    have := hf kv hkv
    simp at this
  | some kv =>
    simp only [Option.map_some', Option.isSome_some, true_iff]
    have h1 := List.find?_some hf
    have h2 := List.mem_of_find?_eq_some hf
    have : kv.1 = k := by simpa using h1
    exact this ▸ List.mem_map_of_mem Prod.fst h2

/-- The projection loop of the tree mappers recognizes exactly the keys of the
allFields record, and emits the requested name itself as the key. -/
theorem exists_lookup_pair_iff (allF : List (String × JsVal)) (f a : String) :
    (∃ v, (lookupField allF f).map (fun w => (f, w)) = some (a, v))
      ↔ f = a ∧ a ∈ allF.map Prod.fst := by
  cases hl : lookupField allF f with
  | none =>
    simp only [Option.map_none']
    constructor
    · rintro ⟨v, hv⟩
      exact absurd hv (by simp)
    · rintro ⟨rfl, hmem⟩
      have hs := (lookupField_isSome_iff allF f).mpr hmem
      rw [hl] at hs
      simp at hs
  | some w =>
    simp only [Option.map_some']
    constructor
    · rintro ⟨v, hv⟩
      have hpair := Option.some.inj hv
      have h1 : f = a := congrArg Prod.fst hpair
      refine ⟨h1, ?_⟩
      have hs := (lookupField_isSome_iff allF f).mp (by rw [hl]; rfl)
      exact h1 ▸ hs
    · rintro ⟨rfl, _⟩
      exact ⟨w, rfl⟩

/-- Key characterization of the tree-mode task mapper for a non-empty request:
the type discriminator plus exactly the recognized requested names. -/
theorem mem_keys_mapTask (fields : List String) (t : TreeTask) (hf : fields ≠ [])
    (k : String) :
    k ∈ (mapTask fields t).map Prod.fst
      ↔ k = "type" ∨ (k ∈ fields ∧ k ∈ (taskAllFields t).map Prod.fst) := by
  unfold mapTask
  rw [if_neg (by simp [List.isEmpty_iff, hf])]
  rw [mem_keys_foldAssign]
  constructor
  · rintro (h | ⟨f, hfm, v, hv⟩)
    · simp at h
      exact Or.inl h
    · have := (exists_lookup_pair_iff (taskAllFields t) f k).mp ⟨v, hv⟩
      exact Or.inr ⟨this.1 ▸ hfm, this.2⟩
  · rintro (rfl | ⟨hk, hmem⟩)
    · exact Or.inl (by simp)
    · rcases (exists_lookup_pair_iff (taskAllFields t) k k).mpr ⟨rfl, hmem⟩ with ⟨v, hv⟩
      exact Or.inr ⟨k, hk, v, hv⟩

/-- Key characterization of the tree-mode project mapper for a non-empty
request: the type discriminator, the recognized requested names, and the
tasks array exactly when include_tasks is on. -/
theorem mem_keys_mapProject (fields : List String) (includeTasks : Bool)
    (tf : TreeTask → Bool) (p : TreeProject) (hf : fields ≠ []) (k : String) :
    k ∈ (mapProject fields includeTasks tf p).map Prod.fst
      ↔ k = "type" ∨ (k ∈ fields ∧ k ∈ (projectAllFields p).map Prod.fst)
        ∨ (includeTasks = true ∧ k = "tasks") := by
  unfold mapProject
  rw [if_neg (by simp [List.isEmpty_iff, hf])]
  have hbase : ∀ a, a ∈ (foldAssign
      (fun f => (lookupField (projectAllFields p) f).map (fun v => (f, v))) fields
      [("type", JsVal.str "project")]).map Prod.fst
      ↔ a = "type" ∨ (a ∈ fields ∧ a ∈ (projectAllFields p).map Prod.fst) := by
    intro a
    rw [mem_keys_foldAssign]
    constructor
    · rintro (h | ⟨f, hfm, v, hv⟩)
      · simp at h
        exact Or.inl h
      · have := (exists_lookup_pair_iff (projectAllFields p) f a).mp ⟨v, hv⟩
        exact Or.inr ⟨this.1 ▸ hfm, this.2⟩
    · rintro (rfl | ⟨hk, hmem⟩)
      · exact Or.inl (by simp)
      · rcases (exists_lookup_pair_iff (projectAllFields p) a a).mpr ⟨rfl, hmem⟩ with ⟨v, hv⟩
        exact Or.inr ⟨a, hk, v, hv⟩
  cases includeTasks with
  | false =>
    simp only [Bool.false_eq_true, if_false]
    rw [hbase]
    constructor
    · rintro (h | h)
      · exact Or.inl h
      · exact Or.inr (Or.inl h)
    · rintro (h | h | ⟨hfalse, _⟩)
      · exact Or.inl h
      · exact Or.inr h
      · simp at hfalse
  | true =>
    simp only [if_true]
    rw [mem_keys_objAssign, hbase]
    constructor
    · rintro ((h | h) | rfl)
      · exact Or.inl h
      · exact Or.inr (Or.inl h)
      · refine Or.inr (Or.inr ⟨?_, rfl⟩)
        trivial
    · rintro (h | h | ⟨_, rfl⟩)
      · exact Or.inl (Or.inl h)
      · exact Or.inl (Or.inr h)
      · exact Or.inr rfl

/-- C3: counterexample.  The flat-query projector (query.py mapItem) applied
to the non-empty request ["name"] produces a record whose only key is "name";
the type discriminator claimed to be always present is absent. -/
theorem C3_counterexample :
    (mapItem "tasks" ["name"] sampleItem).map Prod.fst = ["name"]
    ∧ "type" ∉ (mapItem "tasks" ["name"] sampleItem).map Prod.fst := by
  constructor
  · rfl
  · decide

/-- C3 (amended): for a non-empty requested field list, the tree-mode
projectors (tree.py mapTask and mapProject) emit exactly the type
discriminator, the recognized requested fields (plus the tasks array when
include_tasks is on), unrecognized names being silently dropped; the
flat-query projector (query.py mapItem) emits exactly the output keys of the
recognized requested fields - silently dropping unrecognized ones - and never
a type discriminator. -/
theorem C3_amended (entity : String) (fields : List String) (item : Item)
    (t : TreeTask) (p : TreeProject) (includeTasks : Bool) (tf : TreeTask → Bool)
    (hf : fields ≠ []) :
    (∀ k, k ∈ (mapItem entity fields item).map Prod.fst
        ↔ ∃ f ∈ fields, ∃ v, mapItemField item f = some (k, v))
    ∧ "type" ∉ (mapItem entity fields item).map Prod.fst
    ∧ "type" ∈ (mapTask fields t).map Prod.fst
    ∧ (∀ k, k ∈ (mapTask fields t).map Prod.fst
        ↔ k = "type" ∨ (k ∈ fields ∧ k ∈ (taskAllFields t).map Prod.fst))
    ∧ "type" ∈ (mapProject fields includeTasks tf p).map Prod.fst
    ∧ (∀ k, k ∈ (mapProject fields includeTasks tf p).map Prod.fst
        ↔ k = "type" ∨ (k ∈ fields ∧ k ∈ (projectAllFields p).map Prod.fst)
          ∨ (includeTasks = true ∧ k = "tasks")) := by
  have hItem : ∀ k, k ∈ (mapItem entity fields item).map Prod.fst
      ↔ ∃ f ∈ fields, ∃ v, mapItemField item f = some (k, v) := by
    intro k
    unfold mapItem
    rw [show (if fields.isEmpty then default_fields entity else fields) = fields by
      rw [if_neg (by simp [List.isEmpty_iff, hf])]]
    rw [mem_keys_foldAssign]
    simp
  refine ⟨hItem, ?_, ?_, mem_keys_mapTask fields t hf, ?_,
    mem_keys_mapProject fields includeTasks tf p hf⟩
  · intro hmem
    rcases (hItem "type").mp hmem with ⟨f, _, v, hv⟩
    exact mapItemField_ne_type item f v hv
  · exact (mem_keys_mapTask fields t hf "type").mpr (Or.inl rfl)
  · exact (mem_keys_mapProject fields includeTasks tf p hf "type").mpr (Or.inl rfl)

/-- C3 amended witness: concrete instances of both halves. -/
theorem C3_amended_witness :
    "type" ∈ (mapTask ["name"] sampleTreeTask).map Prod.fst
    ∧ "type" ∉ (mapItem "tasks" ["name"] sampleItem).map Prod.fst := by
  have h := C3_amended "tasks" ["name"] sampleItem sampleTreeTask sampleTreeProject
    false (fun _ => true) (by decide)
  exact ⟨h.2.2.1, h.2.1⟩

/-- Stable merge is a permutation of the concatenation of its inputs. -/
theorem mergeBy_perm (le : α → α → Bool) :
    ∀ (xs ys : List α), (mergeBy le xs ys).Perm (xs ++ ys) := by
  intro xs
  induction xs with
  | nil =>
    intro ys
    simp [mergeBy]
  | cons x xs ihx =>
    intro ys
    induction ys with
    | nil => simp [mergeBy]
    | cons y ys ihy =>
      simp only [mergeBy]
      split
      · exact List.Perm.cons x (ihx (y :: ys))
      · exact List.Perm.trans (List.Perm.cons y ihy) List.perm_middle.symm

/-- The modelled JS sort permutes its input. -/
theorem jsArraySort_perm_aux (le : α → α → Bool) :
    ∀ (n : Nat) (l : List α), l.length ≤ n → (jsArraySort le l).Perm l := by
  intro n
  induction n with
  | zero =>
    intro l hl
    have hnil : l = [] := List.length_eq_zero.mp (Nat.le_zero.mp hl)
    subst hnil
    unfold jsArraySort
    simp
  | succ n ih =>
    intro l hl
    by_cases h : l.length ≤ 1
    · unfold jsArraySort
      rw [dif_pos h]
    · unfold jsArraySort
      rw [dif_neg h]
      have h1 : (l.take (l.length / 2)).length ≤ n := by
        simp only [List.length_take]
        omega
      have h2 : (l.drop (l.length / 2)).length ≤ n := by
        simp only [List.length_drop]
        omega
      refine List.Perm.trans (mergeBy_perm le _ _) ?_
      refine List.Perm.trans (List.Perm.append (ih _ h1) (ih _ h2)) ?_
      rw [List.take_append_drop]

/-- The modelled JS sort permutes its input (top form). -/
theorem jsArraySort_perm (le : α → α → Bool) (l : List α) : (jsArraySort le l).Perm l :=
  jsArraySort_perm_aux le l.length l le_rfl

/-- The empty list is partitioned. -/
theorem partitioned_nil (P : β → Bool) : PartitionedBy P [] :=
  ⟨[], [], rfl, by simp, by simp⟩

/-- A singleton is partitioned. -/
theorem partitioned_singleton (P : β → Bool) (x : β) : PartitionedBy P [x] := by
  cases hx : P x
  · exact ⟨[], [x], rfl, by simp, by intro a ha; rcases List.mem_singleton.mp ha with rfl; exact hx⟩
  · exact ⟨[x], [], by simp, by intro a ha; rcases List.mem_singleton.mp ha with rfl; exact hx, by simp⟩

/-- Prepending a P-element preserves the partition. -/
theorem partitioned_cons_true (P : β → Bool) (x : β) (l : List β)
    (hx : P x = true) (hl : PartitionedBy P l) : PartitionedBy P (x :: l) := by
  rcases hl with ⟨l1, l2, rfl, h1, h2⟩
  refine ⟨x :: l1, l2, rfl, ?_, h2⟩
  intro a ha
  rcases List.mem_cons.mp ha with rfl | ha
  · exact hx
  · exact h1 a ha

/-- An all-failures list is partitioned. -/
theorem partitioned_of_allFalse (P : β → Bool) (l : List β)
    (h : ∀ x ∈ l, P x = false) : PartitionedBy P l :=
  ⟨[], l, rfl, by simp, h⟩

/-- Destructing a partition of a cons cell. -/
theorem partitioned_cons_elim (P : β → Bool) (x : β) (l : List β)
    (h : PartitionedBy P (x :: l)) :
    (P x = true ∧ PartitionedBy P l) ∨ (∀ y ∈ x :: l, P y = false) := by
  rcases h with ⟨l1, l2, heq, h1, h2⟩
  cases l1 with
  | nil =>
    right
    simp only [List.nil_append] at heq
    subst heq
    exact h2
  | cons a l1 =>
    left
    simp only [List.cons_append] at heq
    obtain ⟨rfl, rfl⟩ : x = a ∧ l = l1 ++ l2 := by
      injection heq with hx hl
      exact ⟨hx, hl⟩
    exact ⟨h1 x (by simp), l1, l2, rfl, fun y hy => h1 y (List.mem_cons_of_mem _ hy), h2⟩

/-- Stable merge preserves the partition whenever the comparator sends
P-failures after everything (never before a P-element). -/
theorem mergeBy_partitioned (P : β → Bool) (le : β → β → Bool)
    (hle1 : ∀ a b, P a = false → le a b = false)
    (hle2 : ∀ a b, P a = true → P b = false → le a b = true) :
    ∀ xs ys, PartitionedBy P xs → PartitionedBy P ys →
      PartitionedBy P (mergeBy le xs ys) := by
  intro xs
  induction xs with
  | nil =>
    intro ys _ hys
    simpa [mergeBy] using hys
  | cons x xs ihx =>
    intro ys hxs
    induction ys with
    | nil =>
      intro _
      simpa [mergeBy] using hxs
    | cons y ys ihy =>
      intro hys
      simp only [mergeBy]
      split
      · rename_i hle
        rcases partitioned_cons_elim P x xs hxs with ⟨hPx, hxs2⟩ | hall
        · exact partitioned_cons_true P x _ hPx (ihx (y :: ys) hxs2 hys)
        · have hfalse := hle1 x y (hall x (by simp))
          rw [hfalse] at hle
          cases hle
      · rename_i hle
        rcases partitioned_cons_elim P y ys hys with ⟨hPy, hys2⟩ | hally
        · exact partitioned_cons_true P y _ hPy (ihy hys2)
        · rcases partitioned_cons_elim P x xs hxs with ⟨hPx, _⟩ | hallx
          · have := hle2 x y hPx (hally y (by simp))
            exact absurd this hle
          · apply partitioned_of_allFalse
            intro z hz
            rcases List.mem_cons.mp hz with rfl | hz
            · exact hally z (by simp)
            · have hz2 := (mergeBy_perm le (x :: xs) ys).mem_iff.mp hz
              rcases List.mem_append.mp hz2 with hz3 | hz3
              · exact hallx z hz3
              · exact hally z (List.mem_cons_of_mem _ hz3)

/-- The modelled JS sort leaves every P-failure after every P-element. -/
theorem jsArraySort_partitioned_aux (P : β → Bool) (le : β → β → Bool)
    (hle1 : ∀ a b, P a = false → le a b = false)
    (hle2 : ∀ a b, P a = true → P b = false → le a b = true) :
    ∀ (n : Nat) (l : List β), l.length ≤ n → PartitionedBy P (jsArraySort le l) := by
  intro n
  induction n with
  | zero =>
    intro l hl
    have hnil : l = [] := List.length_eq_zero.mp (Nat.le_zero.mp hl)
    subst hnil
    unfold jsArraySort
    rw [dif_pos (by simp)]
    exact partitioned_nil P
  | succ n ih =>
    intro l hl
    by_cases h : l.length ≤ 1
    · unfold jsArraySort
      rw [dif_pos h]
      match l, h with
      | [], _ => exact partitioned_nil P
      | [x], _ => exact partitioned_singleton P x
    · unfold jsArraySort
      rw [dif_neg h]
      refine mergeBy_partitioned P le hle1 hle2 _ _ (ih _ ?_) (ih _ ?_)
      · simp only [List.length_take]
        omega
      · simp only [List.length_drop]
        omega

/-- Taking a prefix preserves the partition. -/
theorem partitioned_take (P : β → Bool) (l : List β) (n : Nat)
    (h : PartitionedBy P l) : PartitionedBy P (l.take n) := by
  rcases h with ⟨l1, l2, rfl, h1, h2⟩
  rw [List.take_append_eq_append_take]
  exact ⟨_, _, rfl, fun x hx => h1 x (List.take_subset _ _ hx),
    fun x hx => h2 x (List.take_subset _ _ hx)⟩

/-- The generated comparator never places a missing sort value before
anything. -/
theorem sortStage_le_conds (key : β → Option α) (vlt : α → α → Bool) (dir : Int) :
    (∀ a b, (key a).isSome = false →
      decide (jsCompareKey vlt dir (key a) (key b) ≤ 0) = false)
    ∧ (∀ a b, (key a).isSome = true → (key b).isSome = false →
      decide (jsCompareKey vlt dir (key a) (key b) ≤ 0) = true) := by
  constructor
  · intro a b ha
    have hnone : key a = none := by
      cases hk : key a with
      | none => rfl
      | some w => rw [hk] at ha; simp at ha
    rw [hnone]
    rfl
  · intro a b ha hb
    rcases Option.isSome_iff_exists.mp ha with ⟨x, hx⟩
    have hbnone : key b = none := by
      cases hk : key b with
      | none => rfl
      | some w => rw [hk] at hb; simp at hb
    rw [hx, hbnone]
    rfl

/-- C4: for every sort key, attribute order and direction, the sorted output
is a permutation of the input in which every entity with a null or missing
sort value appears after every entity with a present one; a limit of n ≥ 1 is
applied only after sorting (the limited output is the n-prefix of the fully
sorted output), and the null placement also holds in the limited output for
every limit. -/
theorem C4_sort_nulls_last (key : β → Option α) (vlt : α → α → Bool) (ord : String)
    (l : List β) :
    (sortStage key vlt ord l).Perm l
    ∧ PartitionedBy (fun x => (key x).isSome) (sortStage key vlt ord l)
    ∧ (∀ n : Int, 1 ≤ n →
        sortLimit (some key) vlt ord (some n) l = (sortStage key vlt ord l).take n.toNat)
    ∧ ∀ lim, PartitionedBy (fun x => (key x).isSome) (sortLimit (some key) vlt ord lim l) := by
  have hperm : (sortStage key vlt ord l).Perm l := jsArraySort_perm _ l
  have hpart : PartitionedBy (fun x => (key x).isSome) (sortStage key vlt ord l) := by
    unfold sortStage
    exact jsArraySort_partitioned_aux _ _
      (sortStage_le_conds key vlt _).1 (sortStage_le_conds key vlt _).2
      l.length l le_rfl
  refine ⟨hperm, hpart, ?_, ?_⟩
  · intro n hn
    show limitStage (some n) (sortStage key vlt ord l) = _
    simp only [limitStage]
    rw [if_neg (by simp; omega)]
    unfold jsSliceTo
    rw [if_pos (by omega)]
  · intro lim
    show PartitionedBy _ (limitStage lim (sortStage key vlt ord l))
    cases lim with
    | none => exact hpart
    | some n =>
      simp only [limitStage]
      by_cases hz : (n == 0) = true
      · rw [if_pos hz]
        exact hpart
      · rw [if_neg hz]
        unfold jsSliceTo
        split
        · exact partitioned_take _ _ _ hpart
        · exact partitioned_take _ _ _ hpart

/-- C4 witness: a concrete descending-null example; the limited output is the
2-prefix of the sorted output. -/
theorem C4_witness :
    sortLimit (some (fun x : Option Int => x)) (fun a b => decide (a < b)) "asc" (some 2)
        [none, some 3, some 1]
      = (sortStage (fun x : Option Int => x) (fun a b => decide (a < b)) "asc"
          [none, some 3, some 1]).take (2 : Int).toNat :=
  (C4_sort_nulls_last (fun x : Option Int => x) (fun a b => decide (a < b)) "asc"
    [none, some 3, some 1]).2.2.1 2 (by decide)

/-- C10: counterexample.  A limit of -1 (neither 0 nor ≥ 1) still truncates:
the generated slice(0, -1) drops the last element, so the full collection is
not returned although the limit is not ≥ 1. -/
theorem C10_counterexample :
    limitStage (some (-1)) ([10, 20, 30] : List Nat) = [10, 20] := by rfl

/-- C10 (amended): a limit of 0, like a missing limit, returns the full
(sorted) collection; a limit n ≥ 1 truncates to the first n items; a negative
limit follows JS slice semantics and drops the last |n| items. -/
theorem C10_amended (l : List β) :
    limitStage none l = l
    ∧ limitStage (some 0) l = l
    ∧ (∀ n : Int, 1 ≤ n → limitStage (some n) l = l.take n.toNat)
    ∧ (∀ n : Int, n < 0 → limitStage (some n) l = l.take (l.length - n.natAbs))
    ∧ (∀ (γ : Type) (key : β → Option γ) (vlt : γ → γ → Bool) (ord : String),
        sortLimit (some key) vlt ord (some 0) l = sortStage key vlt ord l) := by
  refine ⟨rfl, rfl, ?_, ?_, ?_⟩
  · intro n hn
    simp only [limitStage]
    rw [if_neg (by simp; omega)]
    unfold jsSliceTo
    rw [if_pos (by omega)]
  · intro n hn
    simp only [limitStage]
    rw [if_neg (by simp; omega)]
    unfold jsSliceTo
    rw [if_neg (by omega)]
  · intro γ key vlt ord
    rfl

/-- C10 amended witness: a concrete limit of 2 on three items. -/
theorem C10_amended_witness :
    limitStage (some 2) ([10, 20, 30] : List Nat) = [10, 20] := by
  have h := (C10_amended ([10, 20, 30] : List Nat)).2.2.1 2 (by decide)
  rw [h]
  rfl

/-- Sorting (Python `sorted`) does not change membership. -/
theorem mem_sortedStrings (l : List String) (a : String) :
    a ∈ sortedStrings l ↔ a ∈ l :=
  (jsArraySort_perm _ l).mem_iff

/-- Membership in the unknown-key set of validate_filters. -/
theorem mem_unknownKeys (filters : FilterMap) (et : String) (k : String) :
    k ∈ unknownKeys filters et
      ↔ k ∈ filters.map Prod.fst ∧ k ∉ allowedKeysFor et := by
  unfold unknownKeys
  rw [List.mem_dedup, List.mem_filter]
  simp

/-- The unknown-key set is empty exactly when every key is allowed. -/
theorem unknownKeys_eq_nil_iff (filters : FilterMap) (et : String) :
    unknownKeys filters et = [] ↔ ∀ k ∈ filters.map Prod.fst, k ∈ allowedKeysFor et := by
  constructor
  · intro h k hk
    by_contra hk2
    have : k ∈ unknownKeys filters et := (mem_unknownKeys filters et k).mpr ⟨hk, hk2⟩
    rw [h] at this
    simp at this
  · intro h
    by_contra hne
    rcases List.exists_mem_of_ne_nil _ hne with ⟨k, hk⟩
    rcases (mem_unknownKeys filters et k).mp hk with ⟨hk1, hk2⟩
    exact hk2 (h k hk1)

/-- C5: validation passes exactly when every filter key is in the declared
valid set for the entity kind; otherwise it rejects (before any filtering can
run, since the ValueError is raised by validate_filters itself) with an error
rendering the sorted list of exactly the offending keys together with the
sorted full valid key set. -/
theorem C5_validate_filters (filters : FilterMap) (et : String) :
    (validate_filters filters et = .ok ()
      ↔ ∀ k ∈ filters.map Prod.fst, k ∈ allowedKeysFor et)
    ∧ ((∃ k ∈ filters.map Prod.fst, k ∉ allowedKeysFor et) →
        validate_filters filters et
          = .error (renderValidationError et (sortedStrings (unknownKeys filters et))
              (sortedStrings (allowedKeysFor et)))
        ∧ (∀ k, k ∈ sortedStrings (unknownKeys filters et)
            ↔ k ∈ filters.map Prod.fst ∧ k ∉ allowedKeysFor et)
        ∧ (∀ k, k ∈ sortedStrings (allowedKeysFor et) ↔ k ∈ allowedKeysFor et)) := by
  by_cases hf : filters.isEmpty
  · have hnil : filters = [] := by simpa [List.isEmpty_iff] using hf
    subst hnil
    constructor
    · simp [validate_filters]
    · rintro ⟨k, hk, _⟩
      simp at hk
  · by_cases hu : (unknownKeys filters et).isEmpty
    · have hall : ∀ k ∈ filters.map Prod.fst, k ∈ allowedKeysFor et :=
        (unknownKeys_eq_nil_iff filters et).mp (by simpa [List.isEmpty_iff] using hu)
      constructor
      · have hok : validate_filters filters et = .ok () := by
          simp only [validate_filters, if_neg hf, hu, if_true]
        rw [hok]
        exact iff_of_true rfl hall
      · rintro ⟨k, hk1, hk2⟩
        exact absurd (hall k hk1) hk2
    · have hne : unknownKeys filters et ≠ [] := by
        intro h
        rw [h] at hu
        simp at hu
      have herr : validate_filters filters et
          = .error (renderValidationError et (sortedStrings (unknownKeys filters et))
              (sortedStrings (allowedKeysFor et))) := by
        simp only [validate_filters, if_neg hf]
        rw [if_neg hu]
      constructor
      · rw [herr]
        constructor
        · intro h
          exact absurd h (by simp)
        · intro hall
          exact absurd ((unknownKeys_eq_nil_iff filters et).mpr hall) hne
      · intro _
        refine ⟨herr, ?_, ?_⟩
        · intro k
          rw [mem_sortedStrings, mem_unknownKeys]
        · intro k
          rw [mem_sortedStrings]

/-- C5 witness: the scenario input bogus_key for tasks is rejected, and the
rendered unknown-key list names it. -/
theorem C5_witness :
    validate_filters [("bogus_key", PyVal.bool true)] "tasks" ≠ .ok ()
    ∧ "bogus_key" ∈ sortedStrings (unknownKeys [("bogus_key", PyVal.bool true)] "tasks") := by
  have h := C5_validate_filters [("bogus_key", PyVal.bool true)] "tasks"
  constructor
  · intro hok
    have hall := h.1.mp hok
    have : ("bogus_key" : String) ∈ allowedKeysFor "tasks" :=
      hall "bogus_key" (by decide)
    exact absurd this (by decide)
  · exact ((h.2 ⟨"bogus_key", by decide, by decide⟩).2.1 "bogus_key").mpr
      ⟨by decide, by decide⟩

/-- C6: the parent_name start-folder lookup returns a structured not-found
error when nothing matches exactly or partially; with no exact match and two
or more partial matches it returns a not-found error carrying the id and name
of every partial match as suggestions (the traversal root is never produced,
so no partial tree is built); a unique partial match, or an exact match, is
used as the traversal root. -/
theorem C6_start_folder (folders : List FolderRef) (parentName : String) :
    ((folders.find? (fun f => strToLower f.name == strToLower parentName) = none ∧
      folders.filter (fun f => strIncludes (strToLower f.name) (strToLower parentName)) = []) →
      resolveStartFolder folders parentName
        = .errorNoMatch ("Folder not found with name: " ++ parentName))
    ∧ ((folders.find? (fun f => strToLower f.name == strToLower parentName) = none ∧
        2 ≤ (folders.filter (fun f => strIncludes (strToLower f.name) (strToLower parentName))).length) →
      resolveStartFolder folders parentName
        = .errorSuggestions ("Folder not found with name: " ++ parentName)
            (folders.filter (fun f => strIncludes (strToLower f.name) (strToLower parentName)))
      ∧ ∀ f ∈ folders, strIncludes (strToLower f.name) (strToLower parentName) = true →
          f ∈ folders.filter (fun f => strIncludes (strToLower f.name) (strToLower parentName)))
    ∧ (∀ f, folders.find? (fun g => strToLower g.name == strToLower parentName) = none →
        folders.filter (fun g => strIncludes (strToLower g.name) (strToLower parentName)) = [f] →
        resolveStartFolder folders parentName = .found f)
    ∧ (∀ f, folders.find? (fun g => strToLower g.name == strToLower parentName) = some f →
        resolveStartFolder folders parentName = .found f) := by
  refine ⟨?_, ?_, ?_, ?_⟩
  · rintro ⟨hex, hpart⟩
    simp only [resolveStartFolder]
    rw [hex, hpart]
  · rintro ⟨hex, hlen⟩
    rcases hlist : folders.filter (fun f => strIncludes (strToLower f.name) (strToLower parentName)) with
      _ | ⟨f1, _ | ⟨f2, rest⟩⟩
    · rw [hlist] at hlen
      simp at hlen
    · rw [hlist] at hlen
      simp at hlen
    · constructor
      · simp only [resolveStartFolder]
        rw [hex, hlist]
      · intro f hf hmatch
        exact List.mem_filter.mpr ⟨hf, hmatch⟩
  · intro f hex hone
    simp only [resolveStartFolder]
    rw [hex, hone]
  · intro f hex
    simp only [resolveStartFolder]
    rw [hex]

/-- C6 witness: the spec scenario - parent_name Work with two partial
matches - yields the suggestions error carrying both folders. -/
theorem C6_witness :
    resolveStartFolder [⟨"f1", "🏢 Work"⟩, ⟨"f2", "Work Projects"⟩] "Work"
      = .errorSuggestions "Folder not found with name: Work"
          [⟨"f1", "🏢 Work"⟩, ⟨"f2", "Work Projects"⟩] := by
  have h := (C6_start_folder [⟨"f1", "🏢 Work"⟩, ⟨"f2", "Work Projects"⟩] "Work").2.1
    ⟨by decide, by decide⟩
  exact h.1

/-- With unique keys, a successful dict lookup is exactly membership. -/
theorem FilterMap.get?_eq_some_iff (f : FilterMap) (hnd : (f.map Prod.fst).Nodup)
    (k : String) (v : PyVal) :
    f.get? k = some v ↔ (k, v) ∈ f := by
  constructor
  · intro h
    unfold FilterMap.get? at h
    cases hf : f.find? (fun kv => kv.1 == k) with
    | none =>
      rw [hf] at h
      exact absurd h (by simp)
    | some kv =>
      rw [hf] at h
      have hk : kv.1 = k := by simpa using List.find?_some hf
      have hv : kv.2 = v := by simpa using h
      have hmem := List.mem_of_find?_eq_some hf
      have : kv = (k, v) := Prod.ext hk hv
      exact this ▸ hmem
  · intro hmem
    induction f with
    | nil => simp at hmem
    | cons kv f ih =>
      unfold FilterMap.get?
      rcases List.mem_cons.mp hmem with rfl | hmem2
      · simp [List.find?]
      · have hk : kv.1 ≠ k := by
          intro hkk
          have hknd := List.nodup_cons.mp hnd
          apply hknd.1
          rw [hkk]
          exact List.mem_map_of_mem Prod.fst hmem2
        show (List.find? (fun kv => kv.1 == k) (kv :: f)).map (fun kv => kv.2) = some v
        rw [List.find?_cons_of_neg _ (by simpa using hk)]
        exact ih (List.nodup_cons.mp hnd).2 hmem2

/-- A missing dict key is exactly a key outside the key list. -/
theorem FilterMap.get?_eq_none_iff (f : FilterMap) (k : String) :
    f.get? k = none ↔ k ∉ f.map Prod.fst := by
  unfold FilterMap.get?
  cases hf : f.find? (fun kv => kv.1 == k) with
  | none =>
    rw [List.find?_eq_none] at hf
    simp only [Option.map_none', true_iff]
    intro hk
    rcases List.mem_map.mp hk with ⟨kv, hkv, rfl⟩
    have := hf kv hkv
    simp at this
  | some kv =>
    have hk : kv.1 = k := by simpa using List.find?_some hf
    have hmem : k ∈ f.map Prod.fst :=
      hk ▸ List.mem_map_of_mem Prod.fst (List.mem_of_find?_eq_some hf)
    simp only [Option.map_some']
    constructor
    · intro h
      exact absurd h (by simp)
    · intro h
      exact absurd hmem h

/-- Two dicts with the same key-value pairs in any insertion order agree on
every lookup. -/
theorem FilterMap.get?_eq_of_perm (f1 f2 : FilterMap) (hperm : f1.Perm f2)
    (hnd : (f1.map Prod.fst).Nodup) (k : String) :
    f1.get? k = f2.get? k := by
  have hnd2 : (f2.map Prod.fst).Nodup := ((hperm.map Prod.fst).nodup_iff).mp hnd
  cases h1 : f1.get? k with
  | some v =>
    have hmem := (FilterMap.get?_eq_some_iff f1 hnd k v).mp h1
    exact ((FilterMap.get?_eq_some_iff f2 hnd2 k v).mpr (hperm.mem_iff.mp hmem)).symm
  | none =>
    have hnk := (FilterMap.get?_eq_none_iff f1 k).mp h1
    refine ((FilterMap.get?_eq_none_iff f2 k).mpr ?_).symm
    intro hk
    exact hnk (((hperm.map Prod.fst).mem_iff).mpr hk)

/-- C9: the filter predicate built by `_build_filter_conditions` is a
conjunction of per-key predicates, each reading the dict by key, so two
filter maps holding the same key-value pairs in different insertion orders
accept exactly the same entities. -/
theorem C9_filter_order_independent (f1 f2 : FilterMap) (hperm : f1.Perm f2)
    (hnd : (f1.map Prod.fst).Nodup) (now : Int) (item : Item) :
    evalFilters f1 now item = evalFilters f2 now item := by
  unfold evalFilters
  rw [FilterMap.get?_eq_of_perm f1 f2 hperm hnd "project_id",
    FilterMap.get?_eq_of_perm f1 f2 hperm hnd "project_name",
    FilterMap.get?_eq_of_perm f1 f2 hperm hnd "folder_id",
    FilterMap.get?_eq_of_perm f1 f2 hperm hnd "tags",
    FilterMap.get?_eq_of_perm f1 f2 hperm hnd "status",
    FilterMap.get?_eq_of_perm f1 f2 hperm hnd "flagged",
    FilterMap.get?_eq_of_perm f1 f2 hperm hnd "due_within",
    FilterMap.get?_eq_of_perm f1 f2 hperm hnd "deferred_until",
    FilterMap.get?_eq_of_perm f1 f2 hperm hnd "planned_within",
    FilterMap.get?_eq_of_perm f1 f2 hperm hnd "has_note"]

/-- C9 witness: the two insertion orders of the spec scenario filter map
{flagged: true, tags: [urgent, work]} agree on a concrete item. -/
theorem C9_witness :
    evalFilters [("flagged", PyVal.bool true), ("tags", PyVal.strList ["urgent", "work"])]
        0 sampleItem
      = evalFilters [("tags", PyVal.strList ["urgent", "work"]), ("flagged", PyVal.bool true)]
        0 sampleItem :=
  C9_filter_order_independent
    [("flagged", PyVal.bool true), ("tags", PyVal.strList ["urgent", "work"])]
    [("tags", PyVal.strList ["urgent", "work"]), ("flagged", PyVal.bool true)]
    (List.Perm.swap _ _ _) (by decide) 0 sampleItem

/-- C8: counterexample.  A truthy non-string project_name filter value makes
parameter handling raise before the try block: the tool returns no JSON
response object at all - the AttributeError crosses the tool boundary. -/
theorem C8_counterexample :
    query_omnifocus_boundary [("project_name", PyVal.int 5)] (fun _ => .ok "")
      = ToolOutcome.raised "AttributeError: lower" := rfl

/-- C8 (amended): every exception raised by script execution is caught by the
try block and returned as a structured JSON error object, and a successful
execution is returned as a JSON result; an exception escapes the tool
boundary exactly when script construction or parameter handling (which run
before the try block) raises; the search path's preprocessing is total, so
the search tool never lets an exception escape. -/
theorem C8_amended {σ : Type} (build : Except String σ)
    (exec : σ → Except String String) :
    (∀ s e, build = .ok s → exec s = .error e →
      toolBoundary build exec = .jsonErrorObj e)
    ∧ (∀ s r, build = .ok s → exec s = .ok r →
      toolBoundary build exec = .jsonResult r)
    ∧ (∀ e, toolBoundary build exec = .raised e ↔ build = .error e)
    ∧ (∀ (parse : String → Option Int) (filters : FilterMap)
        (ex : FilterMap → Except String String) (e : String),
        search_boundary parse filters ex ≠ .raised e) := by
  refine ⟨?_, ?_, ?_, ?_⟩
  · intro s e hb he
    simp only [toolBoundary, hb, he]
  · intro s r hb hr
    simp only [toolBoundary, hb, hr]
  · intro e
    cases build with
    | error e2 => simp [toolBoundary]
    | ok s =>
      cases hx : exec s with
      | ok r => simp [toolBoundary, hx]
      | error e2 => simp [toolBoundary, hx]
  · intro parse filters ex e
    unfold search_boundary
    simp only [toolBoundary]
    cases hx : ex (preprocess_date_filters parse filters) with
    | ok r => simp [hx]
    | error e2 => simp [hx]

/-- C8 amended witness: an execution failure on a correctly built query is
returned as a structured JSON error object. -/
theorem C8_amended_witness :
    toolBoundary (Except.ok ()) (fun _ : Unit => Except.error "boom")
      = ToolOutcome.jsonErrorObj "boom" :=
  (C8_amended (Except.ok ()) (fun _ : Unit => Except.error "boom")).1 () "boom" rfl rfl

/-- Structural induction over the folder rose tree. -/
theorem FolderT.strongInduction {P : FolderT → Prop}
    (h : ∀ id name subs projs, (∀ c ∈ subs, P c) → P (.node id name subs projs)) :
    ∀ f, P f := by
  intro f
  induction' hn : sizeOf f using Nat.strong_induction_on with n ih generalizing f
  case _ =>
    cases f with
    | node id name subs projs =>
      apply h
      intro c hc
      have hlt : sizeOf c < n := by
        subst hn
        have := List.sizeOf_lt_of_mem hc
        simp only [FolderT.node.sizeOf_spec]
        omega
      exact ih (sizeOf c) hlt c rfl

/-- With include_folders and include_projects both on, the counter increments
of the tree-construction walk agree with the summary walk on every folder and
depth. -/
theorem buildCounts_eq (opts : TreeOpts) (pf : TreeProject → Bool) (tf : TreeTask → Bool)
    (requested : List String) (hF : opts.includeFolders = true)
    (hP : opts.includeProjects = true) :
    ∀ (f : FolderT) (depth : Int),
      (buildFolderTree opts pf tf requested f depth).2
        = countProjectsInFolder opts pf tf f depth := by
  intro f
  induction f using FolderT.strongInduction with
  | h fid fname subs projs ih =>
    intro depth
    by_cases hd : atDepthLimit opts.maxDepth depth
    · simp only [buildFolderTree, countProjectsInFolder, hd, if_true]
    · have hmaps : ((subs.attach.map (fun s =>
          (s.1, buildFolderTree opts pf tf requested s.1 (depth + 1)))).map
            (fun pr => pr.2.2))
          = subs.attach.map (fun s => countProjectsInFolder opts pf tf s.1 (depth + 1)) := by
        rw [List.map_map]
        apply List.map_congr_left
        intro s _
        exact ih s.1 s.2 (depth + 1)
      simp only [buildFolderTree, countProjectsInFolder, hd, if_false, hF, hP, if_true,
        Bool.false_eq_true]
      rw [hmaps]

/-- C7: counterexample.  With include_projects switched off (all other
options at their defaults) on a snapshot with one root folder containing one
active project, summary mode still counts the project (countProjectsInFolder
ignores the include toggles) while tree mode counts none, so the two count
sets differ. -/
theorem C7_counterexample :
    (treeModeResult optsNoProjects (fun _ => true) (fun _ => true) [] [cxFolder] []).2
      ≠ summaryCounts optsNoProjects (fun _ => true) (fun _ => true) [cxFolder] [] := by
  have h1 : summaryCounts optsNoProjects (fun _ => true) (fun _ => true) [cxFolder] []
      = ⟨1, 1, 0⟩ := by
    simp [summaryCounts, countProjectsInFolder, cxFolder, optsNoProjects, atDepthLimit,
      sumCounts, TreeCounts.add, projectTaskCount, sampleTreeProject]
  have h2 : (treeModeResult optsNoProjects (fun _ => true) (fun _ => true) [] [cxFolder] []).2
      = ⟨1, 0, 0⟩ := by
    simp [treeModeResult, buildFolderTree, cxFolder, optsNoProjects, atDepthLimit,
      sumCounts, TreeCounts.add, projectTaskCount, sampleTreeProject]
  rw [h1, h2]
  simp

/-- C7 (amended): whenever include_folders and include_projects are both on
(their defaults), the three counters (projectCount, folderCount, taskCount)
returned by summary mode equal those returned with summary disabled, for
every snapshot, filter, depth limit, include_root_projects and include_tasks
setting. -/
theorem C7_amended (opts : TreeOpts) (pf : TreeProject → Bool) (tf : TreeTask → Bool)
    (requested : List String) (rootFolders : List FolderT)
    (rootProjects : List TreeProject)
    (hF : opts.includeFolders = true) (hP : opts.includeProjects = true) :
    (treeModeResult opts pf tf requested rootFolders rootProjects).2
      = summaryCounts opts pf tf rootFolders rootProjects := by
  have hmaps : ((rootFolders.map (fun f =>
      buildFolderTree opts pf tf requested f 0)).map (fun pr => pr.2))
      = rootFolders.map (fun f => countProjectsInFolder opts pf tf f 0) := by
    rw [List.map_map]
    apply List.map_congr_left
    intro f _
    exact buildCounts_eq opts pf tf requested hF hP f 0
  unfold treeModeResult summaryCounts
  simp only [hF, hP, if_true, Bool.and_true]
  rw [hmaps]
  by_cases hr : opts.includeRootProjects = true
  · rw [if_pos hr, if_pos hr]
  · rw [if_neg hr, if_neg hr]

/-- C7 amended witness: the default options on the one-folder snapshot. -/
theorem C7_amended_witness :
    (treeModeResult optsDefault (fun _ => true) (fun _ => true) [] [cxFolder] []).2
      = summaryCounts optsDefault (fun _ => true) (fun _ => true) [cxFolder] [] :=
  C7_amended optsDefault (fun _ => true) (fun _ => true) [] [cxFolder] [] rfl rfl
